import Mathlib

/-!
# SimpleVector (simple-vector/simple_vector.h)

A shallow embedding of the `SimpleVector<Type>` class template and a development
of its contract.

Conventions of the embedding

* The backing buffer is a list of slots; its length is the slot count of the
  allocation.  Every slot access is bounds checked, so that an access outside
  the allocation (undefined behaviour in C++) is an explicit `Fault`.
* A member function that mutates `*this` becomes a function from the old
  state to `Except Fault` of the new state.
* Iterators are raw pointers into the buffer; a position is modelled by its
  distance from `begin()`.
* `size_t` values are natural numbers: every size and capacity is bounded by
  the number of slots of a live allocation, far below `2^63`, so that
  `2 * capacity_` and `size_ + 1` never wrap.
* `std::move` of an element is modelled as a copy of its value (a moved-from
  slot keeps its value, as it does for scalar element types).
* `assert` is modelled as in a build with assertions enabled: a failed
  assertion is the fault `Fault.assertion`.
-/

namespace SimpleVectorModel

/-- Abnormal outcomes of an operation. -/
inductive Fault where
  /-- an access to slot `index` of an allocation of `slots` slots, `slots ≤ index` -/
  | outOfBounds (index slots : Nat)
  /-- a failed `assert` -/
  | assertion
  /-- the exception `std::out_of_range` -/
  | out_of_range
  /-- an iterator range whose end precedes its start, or that runs below slot 0 -/
  | badRange
  deriving DecidableEq, Repr

/-- Modelled from the spec: `ArrayPtr<Type>` of `array_ptr.h` (the spec's
OwnedBuffer), which owns one contiguous allocation of a fixed number of
slots.  The list holds the slots in order. -/
abbrev ArrayPtr (α : Type) := List α

/-- Modelled from the spec: the slot count of the allocation (OwnedBuffer's
`capacity`). -/
def ArrayPtr.slots {α : Type} (b : ArrayPtr α) : Nat := b.length

/-- Modelled from the spec: `ArrayPtr(size_t size)` of `array_ptr.h`:
"allocate exactly `capacity` default-constructed elements"; no slot for
`capacity == 0`. -/
def ArrayPtr.alloc {α : Type} [Inhabited α] (n : Nat) : ArrayPtr α :=
  List.replicate n default

/-- Modelled from the spec: `ArrayPtr::operator[]` of `array_ptr.h` used as
an rvalue: raw indexed access, "no bounds checking, caller's
responsibility".  A read outside the allocation is a fault. -/
def ArrayPtr.read {α : Type} (b : ArrayPtr α) (i : Nat) : Except Fault α :=
  match b[i]? with
  | some x => .ok x
  | none => .error (.outOfBounds i b.length)

/-- Modelled from the spec: `ArrayPtr::operator[]` of `array_ptr.h` used as
an lvalue (`buf[i] = x`, `*(buf.Get() + i) = x`).  A write outside the
allocation is a fault. -/
def ArrayPtr.write {α : Type} (b : ArrayPtr α) (i : Nat) (x : α) :
    Except Fault (ArrayPtr α) :=
  if i < b.length then .ok (b.set i x) else .error (.outOfBounds i b.length)

/-! ## The standard algorithms the class calls -/

/-- Loop of `std::copy` / `std::move` between two distinct buffers:
`n` times `*d++ = *s++`. -/
def copyLoop {α : Type} (src : ArrayPtr α) :
    ArrayPtr α → Nat → Nat → Nat → Except Fault (ArrayPtr α)
  | dst, _, _, 0 => .ok dst
  | dst, s, d, n + 1 => do
    let x ← ArrayPtr.read src s
    let dst1 ← ArrayPtr.write dst d x
    copyLoop src dst1 (s + 1) (d + 1) n

/-- Call `std::copy(src + first, src + last, dst + d)` (also `std::move` with
the same arguments), `src` and `dst` being different allocations. -/
def std_copy {α : Type} (src : ArrayPtr α) (first last : Nat) (dst : ArrayPtr α)
    (d : Nat) : Except Fault (ArrayPtr α) :=
  if last < first then .error .badRange else copyLoop src dst first d (last - first)

/-- Loop of `std::move` inside one buffer: `n` times `*d++ = *s++`, each read
seeing the writes made before it. -/
def moveLoop {α : Type} :
    ArrayPtr α → Nat → Nat → Nat → Except Fault (ArrayPtr α)
  | buf, _, _, 0 => .ok buf
  | buf, s, d, n + 1 => do
    let x ← ArrayPtr.read buf s
    let buf1 ← ArrayPtr.write buf d x
    moveLoop buf1 (s + 1) (d + 1) n

/-- Call `std::move(buf + first, buf + last, buf + d)` inside one buffer. -/
def std_move {α : Type} (buf : ArrayPtr α) (first last d : Nat) :
    Except Fault (ArrayPtr α) :=
  if last < first then .error .badRange else moveLoop buf first d (last - first)

/-- Loop of `std::copy_backward` / `std::move_backward` inside one buffer:
`n` times `*--d = *--s`. -/
def backwardLoop {α : Type} :
    ArrayPtr α → Nat → Nat → Nat → Except Fault (ArrayPtr α)
  | buf, _, _, 0 => .ok buf
  | buf, s + 1, d + 1, n + 1 => do
    let x ← ArrayPtr.read buf s
    let buf1 ← ArrayPtr.write buf d x
    backwardLoop buf1 s d n
  | _, _, _, _ + 1 => .error .badRange

/-- Call `std::copy_backward(buf + first, buf + last, buf + dLast)` (also
`std::move_backward`) inside one buffer. -/
def std_copy_backward {α : Type} (buf : ArrayPtr α) (first last dLast : Nat) :
    Except Fault (ArrayPtr α) :=
  if last < first then .error .badRange else backwardLoop buf last dLast (last - first)

/-- Loop of `std::copy_backward` / `std::move_backward` from one buffer into
another: `n` times `*--d = *--s`. -/
def backwardLoopTo {α : Type} (src : ArrayPtr α) :
    ArrayPtr α → Nat → Nat → Nat → Except Fault (ArrayPtr α)
  | dst, _, _, 0 => .ok dst
  | dst, s + 1, d + 1, n + 1 => do
    let x ← ArrayPtr.read src s
    let dst1 ← ArrayPtr.write dst d x
    backwardLoopTo src dst1 s d n
  | _, _, _, _ + 1 => .error .badRange

/-- Call `std::copy_backward(src + first, src + last, dst + dLast)` (also
`std::move_backward`), `src` and `dst` being different allocations. -/
def std_copy_backward_to {α : Type} (src : ArrayPtr α) (first last : Nat)
    (dst : ArrayPtr α) (dLast : Nat) : Except Fault (ArrayPtr α) :=
  if last < first then .error .badRange
  else backwardLoopTo src dst last dLast (last - first)

/-- Loop of `std::fill` and of `SimpleVector::Fill`: `n` times `*first++ = x`. -/
def fillLoop {α : Type} (x : α) :
    ArrayPtr α → Nat → Nat → Except Fault (ArrayPtr α)
  | buf, _, 0 => .ok buf
  | buf, first, n + 1 => do
    let buf1 ← ArrayPtr.write buf first x
    fillLoop x buf1 (first + 1) n

/-- Call `std::fill(buf + first, buf + last, x)`. -/
def std_fill {α : Type} (buf : ArrayPtr α) (first last : Nat) (x : α) :
    Except Fault (ArrayPtr α) :=
  if last < first then .error .badRange else fillLoop x buf first (last - first)

/-! ## The reserve proxy -/

/-- The class `ReserveProxyObj`. -/
structure ReserveProxyObj where
  class_assistant_ : Nat
  deriving DecidableEq, Repr

/-- `ReserveProxyObj::GetSize`. -/
def ReserveProxyObj.GetSize (obj : ReserveProxyObj) : Nat := obj.class_assistant_

/-- The free function `Reserve(const size_t capacity_to_reserve)`. -/
def Reserve (capacity_to_reserve : Nat) : ReserveProxyObj :=
  { class_assistant_ := capacity_to_reserve }

/-- Loop of `std::equal(first1, last1, first2)`: `n` times compare `*first1++`
with `*first2++`, stopping with `false` at the first pair that differs. -/
def equalLoop {α : Type} [DecidableEq α] (a b : ArrayPtr α) :
    Nat → Nat → Nat → Except Fault Bool
  | _, _, 0 => .ok true
  | i, j, n + 1 => do
    let x ← ArrayPtr.read a i
    let y ← ArrayPtr.read b j
    if x = y then equalLoop a b (i + 1) (j + 1) n else pure false

/-- Call `std::equal(a + first1, a + last1, b + first2)`. -/
def std_equal {α : Type} [DecidableEq α] (a : ArrayPtr α) (first1 last1 : Nat)
    (b : ArrayPtr α) (first2 : Nat) : Except Fault Bool :=
  if last1 < first1 then .error .badRange else equalLoop a b first1 first2 (last1 - first1)

/-- Loop of `std::lexicographical_compare`, `n1` and `n2` being the numbers of
elements left in the two ranges: while both are non-empty compare `*first1`
with `*first2` by `<` both ways; at the end the result is
`first1 == last1 && first2 != last2`. -/
def lexLoop {α : Type} [LT α] [DecidableRel (fun x y : α => x < y)] (a b : ArrayPtr α) :
    Nat → Nat → Nat → Nat → Except Fault Bool
  | _, _, 0, n2 => .ok (decide (n2 ≠ 0))
  | _, _, _ + 1, 0 => .ok false
  | i, j, n1 + 1, n2 + 1 => do
    let x ← ArrayPtr.read a i
    let y ← ArrayPtr.read b j
    if x < y then pure true
    else if y < x then pure false
    else lexLoop a b (i + 1) (j + 1) n1 n2

/-- Call `std::lexicographical_compare(a + first1, a + last1, b + first2, b + last2)`. -/
def std_lexicographical_compare {α : Type} [LT α] [DecidableRel (fun x y : α => x < y)]
    (a : ArrayPtr α) (first1 last1 : Nat) (b : ArrayPtr α) (first2 last2 : Nat) :
    Except Fault Bool :=
  if last1 < first1 ∨ last2 < first2 then .error .badRange
  else lexLoop a b first1 first2 (last1 - first1) (last2 - first2)

/-! ## The class -/

/-- The private fields of `SimpleVector<Type>`. -/
structure SimpleVector (α : Type) where
  items_ : ArrayPtr α
  size_ : Nat
  capacity_ : Nat
  deriving DecidableEq, Repr

namespace SimpleVector

variable {α : Type}

/-- The logical sequence: the elements of the slots `[0, size_)`. -/
def toList (v : SimpleVector α) : List α := v.items_.take v.size_

/-- `SimpleVector() noexcept = default`. -/
def empty : SimpleVector α := { items_ := [], size_ := 0, capacity_ := 0 }

/-- `SimpleVector(size_t size, const Type& value)`. -/
def ofSizeValue [Inhabited α] (size : Nat) (value : α) : Except Fault (SimpleVector α) := do
  let items ← std_fill (ArrayPtr.alloc size) 0 size value
  pure { items_ := items, size_ := size, capacity_ := size }

/-- `explicit SimpleVector(size_t size)`, which delegates to
`SimpleVector(size, Type{})`. -/
def ofSize [Inhabited α] (size : Nat) : Except Fault (SimpleVector α) :=
  ofSizeValue size default

/-- `SimpleVector(std::initializer_list<Type> init)`. -/
def ofInit [Inhabited α] (init : List α) : Except Fault (SimpleVector α) := do
  let items ← std_copy init 0 init.length (ArrayPtr.alloc init.length) 0
  pure { items_ := items, size_ := init.length, capacity_ := init.length }

/-- `GetSize`. -/
def GetSize (v : SimpleVector α) : Nat := v.size_

/-- `GetCapacity`. -/
def GetCapacity (v : SimpleVector α) : Nat := v.capacity_

/-- `IsEmpty`. -/
def IsEmpty (v : SimpleVector α) : Bool := v.size_ == 0

/-- `swap(SimpleVector& other)`: the pair is (`*this`, `other`) afterwards. -/
def swap (v other : SimpleVector α) : SimpleVector α × SimpleVector α :=
  ({ items_ := other.items_, size_ := other.size_, capacity_ := other.capacity_ },
   { items_ := v.items_, size_ := v.size_, capacity_ := v.capacity_ })

/-- `At(size_t index)`, mutable and const: the value the returned reference
designates, or the exception, together with the state of the vector after
the call. -/
def At (v : SimpleVector α) (index : Nat) : Except Fault α × SimpleVector α :=
  if index ≥ v.size_ then
    (.error .out_of_range, v)
  else
    (ArrayPtr.read v.items_ index, v)

/-- `Clear`. -/
def Clear (v : SimpleVector α) : SimpleVector α := { v with size_ := 0 }

/-- `Fill(Iterator first, Iterator last)`, the iterators pointing into `buf`. -/
def Fill [Inhabited α] (buf : ArrayPtr α) (first last : Nat) : Except Fault (ArrayPtr α) :=
  if first < last then fillLoop default buf first (last - first) else .error .assertion

/-- `Resize(size_t new_size)`. -/
def Resize [Inhabited α] (v : SimpleVector α) (new_size : Nat) :
    Except Fault (SimpleVector α) := do
  let v1 : SimpleVector α := if new_size ≤ v.size_ then { v with size_ := new_size } else v
  let v2 : SimpleVector α ←
    if new_size ≤ v1.capacity_ then do
      let items ← Fill v1.items_ v1.size_ (v1.size_ + new_size)
      pure { v1 with items_ := items }
    else pure v1
  if new_size > v2.capacity_ then do
    let new_capacity := max new_size (v2.capacity_ * 2)
    let arr_ptr : ArrayPtr α := ArrayPtr.alloc new_capacity
    let arr_ptr ← Fill arr_ptr 0 new_capacity
    let arr_ptr ← std_copy v2.items_ 0 v2.capacity_ arr_ptr 0
    pure { items_ := arr_ptr, size_ := new_size, capacity_ := new_capacity }
  else pure v2

/-- `Reserve(size_t new_capacity)`. -/
def Reserve [Inhabited α] (v : SimpleVector α) (new_capacity : Nat) :
    Except Fault (SimpleVector α) :=
  if new_capacity > v.capacity_ then do
    let tmp_ ← ofSize new_capacity
    let items ← std_copy v.items_ 0 v.size_ tmp_.items_ 0
    let tmp_ : SimpleVector α := { tmp_ with items_ := items, size_ := v.size_ }
    pure (swap v tmp_).1
  else pure v

/-- `PushBack(const Type& item)`. -/
def PushBack [Inhabited α] (v : SimpleVector α) (item : α) :
    Except Fault (SimpleVector α) := do
  let v1 : SimpleVector α ←
    if v.size_ > v.capacity_ then do
      let new_capacity := max 1 (2 * v.capacity_)
      let arr_ptr : ArrayPtr α := ArrayPtr.alloc new_capacity
      let arr_ptr ← std_fill arr_ptr 0 new_capacity default
      let arr_ptr ← std_copy v.items_ 0 v.size_ arr_ptr 0
      let arr_ptr ← ArrayPtr.write arr_ptr v.size_ item
      pure { v with items_ := arr_ptr, capacity_ := new_capacity }
    else pure v
  let items ← ArrayPtr.write v1.items_ v1.size_ item
  pure { v1 with items_ := items, size_ := v1.size_ + 1 }

/-- `PushBack(Type&& item)`. -/
def PushBackMove [Inhabited α] (v : SimpleVector α) (item : α) :
    Except Fault (SimpleVector α) := do
  let v1 : SimpleVector α ←
    if v.size_ + 1 > v.capacity_ then do
      let new_capacity := max (v.size_ + 1) (v.capacity_ * 2)
      let temp : ArrayPtr α := ArrayPtr.alloc new_capacity
      let temp ← std_copy v.items_ 0 v.size_ temp 0
      pure { v with items_ := temp, capacity_ := new_capacity }
    else pure v
  let items ← ArrayPtr.write v1.items_ v1.size_ item
  pure { v1 with items_ := items, size_ := v1.size_ + 1 }

/-- `Insert(ConstIterator pos, const Type& value)`, `pos` being `begin() + element`;
the result is the new state and the position returned. -/
def Insert [Inhabited α] (v : SimpleVector α) (element : Nat) (value : α) :
    Except Fault (SimpleVector α × Nat) := do
  if ¬ (element ≤ v.size_) then throw Fault.assertion
  let v1 : SimpleVector α ←
    if v.capacity_ = 0 then do
      let app_ptr : ArrayPtr α := ArrayPtr.alloc 1
      let app_ptr ← ArrayPtr.write app_ptr element value
      pure { v with items_ := app_ptr, capacity_ := v.capacity_ + 1 }
    else if v.size_ < v.capacity_ then do
      let items ← std_copy_backward v.items_ element v.size_ (v.size_ + 1)
      let items ← ArrayPtr.write items element value
      pure { v with items_ := items }
    else do
      let new_capacity := max (v.size_ + 1) (v.capacity_ * 2)
      let app_ptr : ArrayPtr α := ArrayPtr.alloc v.capacity_
      let app_ptr ← std_copy v.items_ 0 v.size_ app_ptr 0
      let app_ptr ← std_copy_backward_to v.items_ element v.size_ app_ptr (v.size_ + 1)
      let app_ptr ← ArrayPtr.write app_ptr element value
      pure { v with items_ := app_ptr, capacity_ := new_capacity }
  pure ({ v1 with size_ := v1.size_ + 1 }, element)

/-- `Insert(Iterator pos, Type&& value)`, `pos` being `begin() + element`;
the result is the new state and the position returned. -/
def InsertMove [Inhabited α] (v : SimpleVector α) (element : Nat) (value : α) :
    Except Fault (SimpleVector α × Nat) := do
  if ¬ (element ≤ v.size_) then throw Fault.assertion
  let v1 : SimpleVector α ←
    if v.capacity_ = 0 then do
      let app_ptr : ArrayPtr α := ArrayPtr.alloc 1
      let app_ptr ← ArrayPtr.write app_ptr element value
      pure { v with items_ := app_ptr, capacity_ := v.capacity_ + 1 }
    else if v.size_ < v.capacity_ then do
      let items ← std_copy_backward v.items_ element v.size_ (v.size_ + 1)
      let items ← ArrayPtr.write items element value
      pure { v with items_ := items }
    else do
      let new_capacity := max (v.size_ + 1) (v.capacity_ * 2)
      let app_ptr : ArrayPtr α := ArrayPtr.alloc v.capacity_
      let app_ptr ← std_copy v.items_ 0 v.size_ app_ptr 0
      let app_ptr ← std_copy_backward_to v.items_ element v.size_ app_ptr (v.size_ + 1)
      let app_ptr ← ArrayPtr.write app_ptr element value
      pure { v with items_ := app_ptr, capacity_ := new_capacity }
  pure ({ v1 with size_ := v1.size_ + 1 }, element)

/-- `PopBack`. -/
def PopBack (v : SimpleVector α) : Except Fault (SimpleVector α) :=
  if v.size_ = 0 then .error .assertion else .ok { v with size_ := v.size_ - 1 }

/-- `Erase(ConstIterator pos)`, `pos` being `cbegin() + element`; the result
is the new state and the position returned. -/
def Erase (v : SimpleVector α) (element : Nat) : Except Fault (SimpleVector α × Nat) := do
  if ¬ (element ≤ v.size_) then throw Fault.assertion
  let items ← std_move v.items_ (element + 1) v.size_ element
  pure ({ v with items_ := items, size_ := v.size_ - 1 }, element)

/-- `explicit SimpleVector(ReserveProxyObj obj)`: the members start from their
default initialisers and the body calls `Reserve(obj.GetSize())`. -/
def ofReserve [Inhabited α] (obj : ReserveProxyObj) : Except Fault (SimpleVector α) :=
  SimpleVector.Reserve empty obj.GetSize

/-- `SimpleVector(const SimpleVector& other)`: the pair is (the vector
constructed, `other` afterwards). -/
def ofCopy [Inhabited α] (other : SimpleVector α) :
    Except Fault (SimpleVector α × SimpleVector α) := do
  let items ← std_copy other.items_ 0 other.size_ (ArrayPtr.alloc other.size_) 0
  pure ({ items_ := items, size_ := other.size_, capacity_ := other.size_ }, other)

/-- `SimpleVector(SimpleVector&& other)`: `items_` is initialised with
`other.capacity_` slots, `size_` and `capacity_` with their default
initialisers 0, then the body calls `swap(other)`.  The pair is (the vector
constructed, `other` afterwards). -/
def ofMove [Inhabited α] (other : SimpleVector α) : SimpleVector α × SimpleVector α :=
  swap { items_ := ArrayPtr.alloc other.capacity_, size_ := 0, capacity_ := 0 } other

/-- `operator=(const SimpleVector& rhs)`; `thisIsRhs` is the outcome of the
address test `this == &rhs`.  The pair is (`*this`, `rhs`) afterwards. -/
def operatorAssign [Inhabited α] (v rhs : SimpleVector α) (thisIsRhs : Bool) :
    Except Fault (SimpleVector α × SimpleVector α) :=
  if thisIsRhs = false then
    if IsEmpty rhs then
      pure (Clear v, rhs)
    else do
      let arr_ptr ← ofSize rhs.size_
      let items ← std_copy rhs.items_ 0 rhs.size_ arr_ptr.items_ 0
      let arr_ptr : SimpleVector α := { arr_ptr with items_ := items }
      let arr_ptr : SimpleVector α := { arr_ptr with capacity_ := v.capacity_ }
      pure ((swap v arr_ptr).1, rhs)
  else pure (v, rhs)

/-- `operator[](size_t index)`, mutable and const: the value the returned
reference designates. -/
def subscript (v : SimpleVector α) (index : Nat) : Except Fault α :=
  if index ≤ v.capacity_ then ArrayPtr.read v.items_ index else .error .assertion

/-- Successive calls `PushBack(std::move(x))`, one for each element of the
list, in order. -/
def pushBackAll [Inhabited α] : SimpleVector α → List α → Except Fault (SimpleVector α)
  | v, [] => .ok v
  | v, x :: xs => do
    let v1 ← PushBackMove v x
    pushBackAll v1 xs

/-- The state invariant of the class: `size_ ≤ capacity_` and `capacity_` is
the slot count of the buffer. -/
def Invariant (v : SimpleVector α) : Prop :=
  v.size_ ≤ v.capacity_ ∧ v.capacity_ = ArrayPtr.slots v.items_

instance (v : SimpleVector α) : Decidable (Invariant v) :=
  inferInstanceAs (Decidable (v.size_ ≤ v.capacity_ ∧ v.capacity_ = ArrayPtr.slots v.items_))

end SimpleVector

/-! ## The comparison operators -/

/-- `operator==(const SimpleVector&, const SimpleVector&)`. -/
def operatorEq {α : Type} [DecidableEq α] (lhs rhs : SimpleVector α) : Except Fault Bool :=
  std_equal lhs.items_ 0 lhs.size_ rhs.items_ 0

/-- `operator!=`. -/
def operatorNe {α : Type} [DecidableEq α] (lhs rhs : SimpleVector α) : Except Fault Bool := do
  let r ← operatorEq lhs rhs
  pure (!r)

/-- `operator<`. -/
def operatorLt {α : Type} [LT α] [DecidableRel (fun x y : α => x < y)]
    (lhs rhs : SimpleVector α) : Except Fault Bool :=
  std_lexicographical_compare lhs.items_ 0 lhs.size_ rhs.items_ 0 rhs.size_

/-- `operator<=`: `!(rhs < lhs)`. -/
def operatorLe {α : Type} [LT α] [DecidableRel (fun x y : α => x < y)]
    (lhs rhs : SimpleVector α) : Except Fault Bool := do
  let r ← operatorLt rhs lhs
  pure (!r)

/-- `operator>`: `(rhs < lhs)`. -/
def operatorGt {α : Type} [LT α] [DecidableRel (fun x y : α => x < y)]
    (lhs rhs : SimpleVector α) : Except Fault Bool :=
  operatorLt rhs lhs

/-- `operator>=`: `!(rhs < lhs)`. -/
def operatorGe {α : Type} [LT α] [DecidableRel (fun x y : α => x < y)]
    (lhs rhs : SimpleVector α) : Except Fault Bool := do
  let r ← operatorLt rhs lhs
  pure (!r)

/-! ## Facts about the buffer and the loops -/

theorem ArrayPtr.read_of_lt {α : Type} (b : ArrayPtr α) (i : Nat) (h : i < b.length) :
    ArrayPtr.read b i = .ok (b.get ⟨i, h⟩) := by
  unfold ArrayPtr.read
  rw [List.getElem?_eq_getElem h]
  rfl

theorem ArrayPtr.write_of_lt {α : Type} (b : ArrayPtr α) (i : Nat) (x : α)
    (h : i < b.length) : ArrayPtr.write b i x = .ok (b.set i x) := by
  unfold ArrayPtr.write
  rw [if_pos h]

/-- A forward move inside one buffer towards the front (`d ≤ s`) is a shift:
slot `j` of `[d, d + n)` receives the old slot `j + (s - d)`; every other slot
is unchanged. -/
theorem moveLoop_spec {α : Type} (n : Nat) :
    ∀ (buf : ArrayPtr α) (s d : Nat), d ≤ s → s + n ≤ buf.length →
      ∃ r, moveLoop buf s d n = .ok r ∧ r.length = buf.length ∧
        ∀ j, r[j]? = if d ≤ j ∧ j < d + n then buf[j + (s - d)]? else buf[j]? := by
  induction n with
  | zero =>
    intro buf s d _ _
    refine ⟨buf, rfl, rfl, ?_⟩
    intro j
    have : ¬ (d ≤ j ∧ j < d + 0) := by omega
    rw [if_neg this]
  | succ n ih =>
    intro buf s d hds hlen
    have hs : s < buf.length := by omega
    have hd : d < buf.length := by omega
    obtain ⟨r, hr, hrl, hrj⟩ := ih (buf.set d (buf.get ⟨s, hs⟩)) (s + 1) (d + 1)
      (by omega) (by rw [List.length_set]; omega)
    refine ⟨r, ?_, ?_, ?_⟩
    · simp only [moveLoop, ArrayPtr.read_of_lt buf s hs, ArrayPtr.write_of_lt buf d _ hd,
        bind, Except.bind]
      exact hr
    · rw [hrl, List.length_set]
    · intro j
      rw [hrj j]
      by_cases h1 : d + 1 ≤ j ∧ j < d + 1 + n
      · have h2 : d ≤ j ∧ j < d + (n + 1) := by omega
        rw [if_pos h1, if_pos h2, List.getElem?_set]
        have h3 : ¬ (d = j + (s + 1 - (d + 1))) := by omega
        rw [if_neg h3]
        have h4 : j + (s + 1 - (d + 1)) = j + (s - d) := by omega
        rw [h4]
      · rw [if_neg h1, List.getElem?_set]
        by_cases h5 : d = j
        · subst h5
          have h2 : d ≤ d ∧ d < d + (n + 1) := by omega
          rw [if_pos rfl, if_pos hd, if_pos h2]
          have h6 : d + (s - d) = s := by omega
          rw [h6, List.getElem?_eq_getElem hs]
          rfl
        · have h2 : ¬ (d ≤ j ∧ j < d + (n + 1)) := by omega
          rw [if_neg h5, if_neg h2]

/-- A copy between two buffers: slot `j` of `[d, d + n)` of the destination
receives the source slot `s + (j - d)`; every other slot is unchanged. -/
theorem copyLoop_spec {α : Type} (src : ArrayPtr α) (n : Nat) :
    ∀ (dst : ArrayPtr α) (s d : Nat), s + n ≤ src.length → d + n ≤ dst.length →
      ∃ r, copyLoop src dst s d n = .ok r ∧ r.length = dst.length ∧
        ∀ j, r[j]? = if d ≤ j ∧ j < d + n then src[s + (j - d)]? else dst[j]? := by
  induction n with
  | zero =>
    intro dst s d _ _
    refine ⟨dst, rfl, rfl, ?_⟩
    intro j
    have : ¬ (d ≤ j ∧ j < d + 0) := by omega
    rw [if_neg this]
  | succ n ih =>
    intro dst s d hsl hdl
    have hs : s < src.length := by omega
    have hd : d < dst.length := by omega
    obtain ⟨r, hr, hrl, hrj⟩ := ih (dst.set d (src.get ⟨s, hs⟩)) (s + 1) (d + 1)
      (by omega) (by rw [List.length_set]; omega)
    refine ⟨r, ?_, ?_, ?_⟩
    · simp only [copyLoop, ArrayPtr.read_of_lt src s hs, ArrayPtr.write_of_lt dst d _ hd,
        bind, Except.bind]
      exact hr
    · rw [hrl, List.length_set]
    · intro j
      rw [hrj j]
      by_cases h1 : d + 1 ≤ j ∧ j < d + 1 + n
      · have h2 : d ≤ j ∧ j < d + (n + 1) := by omega
        have h3 : s + 1 + (j - (d + 1)) = s + (j - d) := by omega
        rw [if_pos h1, if_pos h2, h3]
      · rw [if_neg h1, List.getElem?_set]
        by_cases h5 : d = j
        · subst h5
          have h2 : d ≤ d ∧ d < d + (n + 1) := by omega
          rw [if_pos rfl, if_pos hd, if_pos h2]
          have h6 : s + (d - d) = s := by omega
          rw [h6, List.getElem?_eq_getElem hs]
          rfl
        · have h2 : ¬ (d ≤ j ∧ j < d + (n + 1)) := by omega
          rw [if_neg h5, if_neg h2]

/-- A fill: every slot of `[first, first + n)` receives `x`; every other slot
is unchanged. -/
theorem fillLoop_spec {α : Type} (x : α) (n : Nat) :
    ∀ (buf : ArrayPtr α) (first : Nat), first + n ≤ buf.length →
      ∃ r, fillLoop x buf first n = .ok r ∧ r.length = buf.length ∧
        ∀ j, r[j]? = if first ≤ j ∧ j < first + n then some x else buf[j]? := by
  induction n with
  | zero =>
    intro buf first _
    refine ⟨buf, rfl, rfl, ?_⟩
    intro j
    have : ¬ (first ≤ j ∧ j < first + 0) := by omega
    rw [if_neg this]
  | succ n ih =>
    intro buf first hlen
    have hf : first < buf.length := by omega
    obtain ⟨r, hr, hrl, hrj⟩ := ih (buf.set first x) (first + 1)
      (by rw [List.length_set]; omega)
    refine ⟨r, ?_, ?_, ?_⟩
    · simp only [fillLoop, ArrayPtr.write_of_lt buf first x hf, bind, Except.bind]
      exact hr
    · rw [hrl, List.length_set]
    · intro j
      rw [hrj j]
      by_cases h1 : first + 1 ≤ j ∧ j < first + 1 + n
      · have h2 : first ≤ j ∧ j < first + (n + 1) := by omega
        rw [if_pos h1, if_pos h2]
      · rw [if_neg h1, List.getElem?_set]
        by_cases h5 : first = j
        · subst h5
          have h2 : first ≤ first ∧ first < first + (n + 1) := by omega
          rw [if_pos rfl, if_pos hf, if_pos h2]
        · have h2 : ¬ (first ≤ j ∧ j < first + (n + 1)) := by omega
          rw [if_neg h5, if_neg h2]

/-! ## Erase -/

namespace SimpleVector

variable {α : Type}

/-- C5: in a vector with `size_ ≤ capacity_` whose `capacity_` is the slot
count of its buffer, `Erase` at a position `i < size_` returns normally with
the logical sequence `old[0, i) ++ old[i+1, size)`, the size decremented, the
capacity (and the buffer's slot count) unchanged, and the position `i`, which
is the new end when the last element was removed. -/
theorem Erase_spec (v : SimpleVector α) (i : Nat)
    (hsize : v.size_ ≤ v.capacity_) (hcap : v.capacity_ = ArrayPtr.slots v.items_)
    (hi : i < v.size_) :
    ∃ w, Erase v i = .ok (w, i) ∧
      w.toList = v.toList.take i ++ v.toList.drop (i + 1) ∧
      w.size_ = v.size_ - 1 ∧
      w.capacity_ = v.capacity_ ∧
      ArrayPtr.slots w.items_ = ArrayPtr.slots v.items_ ∧
      (i + 1 = v.size_ → i = w.size_) := by
  have hlen : v.size_ ≤ v.items_.length := by
    unfold ArrayPtr.slots at hcap
    omega
  obtain ⟨r, hr, hrl, hrj⟩ :=
    moveLoop_spec (v.size_ - (i + 1)) v.items_ (i + 1) i (by omega) (by omega)
  refine ⟨{ v with items_ := r, size_ := v.size_ - 1 }, ?_, ?_, rfl, rfl, ?_, ?_⟩
  · have h1 : ¬ (v.size_ < i + 1) := by omega
    have h2 : i ≤ v.size_ := by omega
    simp only [Erase, std_move, if_neg h1, hr, h2, not_true_eq_false, if_false,
      bind, Except.bind, pure, Except.pure]
  · rw [← List.eraseIdx_eq_take_drop_succ]
    apply List.ext_getElem?
    intro j
    simp only [toList]
    rw [List.getElem?_take, List.getElem?_eraseIdx, List.getElem?_take, List.getElem?_take,
      hrj j]
    by_cases hj : j < v.size_ - 1
    · rw [if_pos hj]
      by_cases hji : j < i
      · have h3 : ¬ (i ≤ j ∧ j < i + (v.size_ - (i + 1))) := by omega
        have h4 : j < v.size_ := by omega
        rw [if_neg h3, if_pos hji, if_pos h4]
      · have h3 : i ≤ j ∧ j < i + (v.size_ - (i + 1)) := by omega
        have h4 : j + 1 < v.size_ := by omega
        have h5 : j + (i + 1 - i) = j + 1 := by omega
        rw [if_pos h3, if_neg hji, if_pos h4, h5]
    · rw [if_neg hj]
      by_cases hji : j < i
      · omega
      · have h4 : ¬ (j + 1 < v.size_) := by omega
        rw [if_neg hji, if_neg h4]
  · simp only [ArrayPtr.slots]
    exact hrl
  · intro h
    show i = v.size_ - 1
    omega

/-- Instance of `Erase_spec`: erasing index 1 of `[1,2,3]`. -/
theorem Erase_spec_witness :
    ∃ w, Erase (⟨[1, 2, 3], 3, 3⟩ : SimpleVector Nat) 1 = .ok (w, 1) ∧
      w.toList = (toList ⟨[1, 2, 3], 3, 3⟩).take 1 ++ (toList ⟨[1, 2, 3], 3, 3⟩).drop (1 + 1) ∧
      w.size_ = 3 - 1 ∧
      w.capacity_ = 3 ∧
      ArrayPtr.slots w.items_ = ArrayPtr.slots [1, 2, 3] ∧
      (1 + 1 = 3 → 1 = w.size_) :=
  Erase_spec ⟨[1, 2, 3], 3, 3⟩ 1 (by decide) (by decide) (by decide)

end SimpleVector

/-! ## Reserve -/

namespace SimpleVector

variable {α : Type}

/-- The constructor `SimpleVector(size_t size)` returns a vector of `size`
slots. -/
theorem ofSize_ok [Inhabited α] (n : Nat) :
    ∃ items : ArrayPtr α, (ofSize n : Except Fault (SimpleVector α)) =
      .ok { items_ := items, size_ := n, capacity_ := n } ∧ items.length = n := by
  obtain ⟨r, hr, hrl, _⟩ := fillLoop_spec (default : α) (n - 0) (ArrayPtr.alloc n) 0
    (by simp [ArrayPtr.alloc])
  refine ⟨r, ?_, ?_⟩
  · simp only [ofSize, ofSizeValue, std_fill, Nat.not_lt_zero, if_false, hr,
      bind, Except.bind, pure, Except.pure]
  · rw [hrl]
    simp [ArrayPtr.alloc]

/-- C9: in a vector with `size_ ≤ capacity_` whose `capacity_` is the slot
count of its buffer, `Reserve(c)` returns normally; the size and the logical
sequence are unchanged; the capacity afterwards is `max capacity_ c`, which
is exactly `c` when `c > capacity_`; when `c ≤ capacity_` the whole state is
unchanged; and the capacity is still the slot count of the buffer. -/
theorem Reserve_spec [Inhabited α] (v : SimpleVector α) (c : Nat)
    (hsize : v.size_ ≤ v.capacity_) (hcap : v.capacity_ = ArrayPtr.slots v.items_) :
    ∃ w, Reserve v c = .ok w ∧
      w.size_ = v.size_ ∧
      w.toList = v.toList ∧
      w.capacity_ = max v.capacity_ c ∧
      (c > v.capacity_ → w.capacity_ = c) ∧
      (c ≤ v.capacity_ → w = v) ∧
      w.capacity_ = ArrayPtr.slots w.items_ := by
  have hlen : v.size_ ≤ v.items_.length := by
    unfold ArrayPtr.slots at hcap
    omega
  by_cases hc : c > v.capacity_
  · obtain ⟨t, ht, htl⟩ := ofSize_ok (α := α) c
    obtain ⟨r, hr, hrl, hrj⟩ := copyLoop_spec v.items_ (v.size_ - 0) t 0 0
      (by omega) (by omega)
    refine ⟨{ items_ := r, size_ := v.size_, capacity_ := c }, ?_, rfl, ?_, ?_, ?_, ?_, ?_⟩
    · simp only [Reserve, if_pos hc, ht, std_copy, Nat.not_lt_zero, if_false, hr, swap,
        bind, Except.bind, pure, Except.pure]
    · apply List.ext_getElem?
      intro j
      simp only [toList]
      rw [List.getElem?_take, List.getElem?_take, hrj j]
      by_cases hj : j < v.size_
      · have h1 : 0 ≤ j ∧ j < 0 + (v.size_ - 0) := by omega
        have h2 : 0 + (j - 0) = j := by omega
        rw [if_pos hj, if_pos h1, h2, if_pos hj]
      · rw [if_neg hj, if_neg hj]
    · show c = max v.capacity_ c
      rw [Nat.max_def, if_pos (by omega)]
    · intro _
      rfl
    · intro h
      omega
    · show c = ArrayPtr.slots r
      simp only [ArrayPtr.slots]
      omega
  · refine ⟨v, ?_, rfl, rfl, ?_, ?_, ?_, hcap⟩
    · simp only [Reserve, if_neg hc, pure, Except.pure]
    · rw [Nat.max_def]
      split <;> omega
    · intro h
      omega
    · intro _
      rfl

/-- Instance of `Reserve_spec`: `Reserve(5)` on `[1,2]` held in three slots. -/
theorem Reserve_spec_witness :
    ∃ w, Reserve (⟨[1, 2, 3], 2, 3⟩ : SimpleVector Nat) 5 = .ok w ∧
      w.size_ = 2 ∧
      w.toList = toList ⟨[1, 2, 3], 2, 3⟩ ∧
      w.capacity_ = max 3 5 ∧
      (5 > 3 → w.capacity_ = 5) ∧
      (5 ≤ 3 → w = ⟨[1, 2, 3], 2, 3⟩) ∧
      w.capacity_ = ArrayPtr.slots w.items_ :=
  Reserve_spec ⟨[1, 2, 3], 2, 3⟩ 5 (by decide) (by decide)

/-! ## At -/

/-- C10: in a vector with `size_ ≤ capacity_` whose `capacity_` is the slot
count of its buffer, `At(index)` throws `std::out_of_range` if and only if
`index ≥ size_`; when `index < size_` it returns the element of the logical
sequence at `index`; and in both cases the vector is left as it was. -/
theorem At_spec (v : SimpleVector α) (index : Nat)
    (hsize : v.size_ ≤ v.capacity_) (hcap : v.capacity_ = ArrayPtr.slots v.items_) :
    ((At v index).1 = .error .out_of_range ↔ index ≥ v.size_) ∧
    (index < v.size_ → ∃ x, (At v index).1 = .ok x ∧ v.toList[index]? = some x) ∧
    (At v index).2 = v := by
  have hlen : v.size_ ≤ v.items_.length := by
    unfold ArrayPtr.slots at hcap
    omega
  by_cases h : index ≥ v.size_
  · refine ⟨?_, ?_, ?_⟩
    · simp only [At, if_pos h]
      exact ⟨fun _ => h, fun _ => trivial⟩
    · intro h1
      omega
    · simp only [At, if_pos h]
  · have hi : index < v.items_.length := by omega
    refine ⟨?_, ?_, ?_⟩
    · simp only [At, if_neg h, ArrayPtr.read_of_lt v.items_ index hi]
      constructor
      · intro h1
        cases h1
      · intro h1
        exact absurd h1 h
    · intro h1
      refine ⟨v.items_.get ⟨index, hi⟩, ?_, ?_⟩
      · simp only [At, if_neg h, ArrayPtr.read_of_lt v.items_ index hi]
      · simp only [toList]
        rw [List.getElem?_take, if_pos h1, List.getElem?_eq_getElem hi]
        rfl
    · simp only [At, if_neg h]

/-- Instance of `At_spec`: `At(2)` on `[1,2,3]`. -/
theorem At_spec_witness :
    ((At (⟨[1, 2, 3], 3, 3⟩ : SimpleVector Nat) 2).1 = .error .out_of_range ↔ 2 ≥ 3) ∧
    (2 < 3 → ∃ x, (At (⟨[1, 2, 3], 3, 3⟩ : SimpleVector Nat) 2).1 = .ok x ∧
      (toList (⟨[1, 2, 3], 3, 3⟩ : SimpleVector Nat))[2]? = some x) ∧
    (At (⟨[1, 2, 3], 3, 3⟩ : SimpleVector Nat) 2).2 = ⟨[1, 2, 3], 3, 3⟩ :=
  At_spec ⟨[1, 2, 3], 3, 3⟩ 2 (by decide) (by decide)

end SimpleVector

/-! ## PushBack on a full vector -/

namespace SimpleVector

variable {α : Type}

/-- On every full vector (`size_ = capacity_`, the slot count of the buffer)
the copy overload of `PushBack` skips its growth branch and writes slot
`size_` of the old buffer, which is outside it. -/
theorem PushBack_full_outOfBounds [Inhabited α] (v : SimpleVector α) (item : α)
    (hfull : v.size_ = v.capacity_) (hcap : v.capacity_ = ArrayPtr.slots v.items_) :
    PushBack v item = .error (.outOfBounds v.size_ v.capacity_) := by
  have h1 : ¬ (v.size_ > v.capacity_) := by omega
  have h3 : v.items_.length = v.capacity_ := by
    unfold ArrayPtr.slots at hcap
    omega
  have h4 : ¬ (v.size_ < v.capacity_) := by omega
  simp only [PushBack, if_neg h1, ArrayPtr.write, h3, if_neg h4, bind, Except.bind,
    pure, Except.pure]

end SimpleVector

/-! ## PushBack, Insert and Resize at concrete states

Each state below is built by the public constructors and operations. -/

namespace SimpleVector

/-- C1: on a default-constructed vector (`size_ = capacity_ = 0`) the copy
overload of `PushBack` does not enter its growth branch (`0 > 0` is false) and
writes slot 0 of a buffer that has no slot, so no vector of size 1 holding
`[7]` results; the move overload on the same state yields `[7]`. -/
theorem PushBack_copy_on_empty :
    PushBack (empty : SimpleVector Nat) 7 = .error (.outOfBounds 0 0) ∧
    PushBackMove (empty : SimpleVector Nat) 7 = .ok ⟨[7], 1, 1⟩ :=
  ⟨rfl, rfl⟩

/-- C2: on the full vector `{1, 2}` (`size_ = capacity_ = 2`) the copy
overload of `PushBack` does not grow: it writes slot 2 of the old buffer of 2
slots, where the move overload grows the capacity to `max(1, 2 * 2) = 4`. -/
theorem PushBack_copy_on_full :
    (ofInit [1, 2] : Except Fault (SimpleVector Nat)) = .ok ⟨[1, 2], 2, 2⟩ ∧
    PushBack (⟨[1, 2], 2, 2⟩ : SimpleVector Nat) 3 = .error (.outOfBounds 2 2) ∧
    PushBackMove (⟨[1, 2], 2, 2⟩ : SimpleVector Nat) 3 = .ok ⟨[1, 2, 3, 0], 3, 4⟩ :=
  ⟨rfl, rfl, rfl⟩

/-- C3: on the full vector `{1, 2, 4}` both overloads of `Insert` at index 2
allocate the new buffer with the old capacity 3 and write its slot 3, so the
sequence `[1, 2, 3, 4]` does not result. -/
theorem Insert_on_full :
    (ofInit [1, 2, 4] : Except Fault (SimpleVector Nat)) = .ok ⟨[1, 2, 4], 3, 3⟩ ∧
    Insert (⟨[1, 2, 4], 3, 3⟩ : SimpleVector Nat) 2 3 = .error (.outOfBounds 3 3) ∧
    InsertMove (⟨[1, 2, 4], 3, 3⟩ : SimpleVector Nat) 2 3 = .error (.outOfBounds 3 3) :=
  ⟨rfl, rfl, rfl⟩

/-- C4: on the full vector `{5, 6}` both overloads of `Insert` at the end
(index 2) work on a new buffer of 2 slots, the old capacity, not of
`max(2 + 1, 2 * 2) = 4` slots: the write of the value to slot 2 is outside
it. -/
theorem Insert_on_full_allocates_old_capacity :
    (ofInit [5, 6] : Except Fault (SimpleVector Nat)) = .ok ⟨[5, 6], 2, 2⟩ ∧
    Insert (⟨[5, 6], 2, 2⟩ : SimpleVector Nat) 2 9 = .error (.outOfBounds 2 2) ∧
    InsertMove (⟨[5, 6], 2, 2⟩ : SimpleVector Nat) 2 9 = .error (.outOfBounds 2 2) :=
  ⟨rfl, rfl, rfl⟩

/-- C6: `{1, 2, 3}` after `PopBack` has the logical sequence `[1, 2]` and the
hidden slot 2 holding 3; `Resize(5)` then yields size 5 and capacity 6 with
the logical sequence `[1, 2, 3, 0, 0]`: the stale 3 is exposed, the sequence is
not `[1, 2, 0, 0, 0]`. -/
theorem Resize_grow_exposes_stale_slot :
    ((ofInit [1, 2, 3] : Except Fault (SimpleVector Nat)) >>= PopBack)
      = .ok ⟨[1, 2, 3], 2, 3⟩ ∧
    Resize (⟨[1, 2, 3], 2, 3⟩ : SimpleVector Nat) 5 = .ok ⟨[1, 2, 3, 0, 0, 0], 5, 6⟩ ∧
    toList (⟨[1, 2, 3, 0, 0, 0], 5, 6⟩ : SimpleVector Nat) = [1, 2, 3, 0, 0] ∧
    toList (⟨[1, 2, 3, 0, 0, 0], 5, 6⟩ : SimpleVector Nat)
      ≠ toList (⟨[1, 2, 3], 2, 3⟩ : SimpleVector Nat) ++ List.replicate (5 - 2) default :=
  ⟨rfl, rfl, rfl, by decide⟩

/-- C7: `{1, 2, 3}` after two `PopBack` has size 1 and capacity 3;
`Resize(2)` then leaves the size at 1 (it is not set to 2) and overwrites the
slots 1 and 2, the second of which is outside `[old_size, new_size)`. -/
theorem Resize_within_capacity_keeps_size :
    ((ofInit [1, 2, 3] : Except Fault (SimpleVector Nat)) >>= PopBack >>= PopBack)
      = .ok ⟨[1, 2, 3], 1, 3⟩ ∧
    Resize (⟨[1, 2, 3], 1, 3⟩ : SimpleVector Nat) 2 = .ok ⟨[1, 0, 0], 1, 3⟩ :=
  ⟨rfl, rfl⟩

/-- C8: `{1, 2, 3, 4}` after `PopBack` has size 3 and capacity 4; `Resize(1)`
then overwrites slot 1 (which held 2) with the default value; and `Resize(2)`
on the full vector `{1, 2, 3}` writes slot 3, outside its buffer of 3
slots. -/
theorem Resize_shrink_overwrites_slots :
    ((ofInit [1, 2, 3, 4] : Except Fault (SimpleVector Nat)) >>= PopBack)
      = .ok ⟨[1, 2, 3, 4], 3, 4⟩ ∧
    Resize (⟨[1, 2, 3, 4], 3, 4⟩ : SimpleVector Nat) 1 = .ok ⟨[1, 0, 3, 4], 1, 4⟩ ∧
    (ofInit [1, 2, 3] : Except Fault (SimpleVector Nat)) = .ok ⟨[1, 2, 3], 3, 3⟩ ∧
    Resize (⟨[1, 2, 3], 3, 3⟩ : SimpleVector Nat) 2 = .error (.outOfBounds 3 3) :=
  ⟨rfl, rfl, rfl, rfl⟩

end SimpleVector

/-! ## Comparison, assignment, move construction and `operator[]` at concrete states -/

/-- The body of `operator>=` is the body of `operator<=`. -/
theorem operatorGe_eq_operatorLe {α : Type} [LT α] [DecidableRel (fun x y : α => x < y)]
    (lhs rhs : SimpleVector α) : operatorGe lhs rhs = operatorLe lhs rhs :=
  rfl

/-- The source of a move construction is left with a buffer of as many slots
as its old capacity counter said. -/
theorem SimpleVector.ofMove_source_slots {α : Type} [Inhabited α] (other : SimpleVector α) :
    ArrayPtr.slots (SimpleVector.ofMove other).2.items_ = other.capacity_ ∧
    (SimpleVector.ofMove other).2.size_ = 0 ∧
    (SimpleVector.ofMove other).2.capacity_ = 0 ∧
    (SimpleVector.ofMove other).1 = other := by
  simp [SimpleVector.ofMove, SimpleVector.swap, ArrayPtr.slots, ArrayPtr.alloc]

/-- C11: `{1, 2} == {1, 2, 3}` is true although the sizes differ (the shorter
vector is a prefix of the longer one): `operator==` compares `lhs.size_`
pairs of elements and never the sizes.  With the operands exchanged it reads
slot 2 of the 2-slot buffer of `{1, 2}`. -/
theorem operatorEq_without_size_check :
    (SimpleVector.ofInit [1, 2] : Except Fault (SimpleVector Nat)) = .ok ⟨[1, 2], 2, 2⟩ ∧
    (SimpleVector.ofInit [1, 2, 3] : Except Fault (SimpleVector Nat)) = .ok ⟨[1, 2, 3], 3, 3⟩ ∧
    operatorEq (⟨[1, 2], 2, 2⟩ : SimpleVector Nat) ⟨[1, 2, 3], 3, 3⟩ = .ok true ∧
    operatorEq (⟨[1, 2, 3], 3, 3⟩ : SimpleVector Nat) ⟨[1, 2], 2, 2⟩
      = .error (.outOfBounds 2 2) :=
  ⟨rfl, rfl, rfl, rfl⟩

/-- C12: for `a = {1}` and `b = {2}`, `a < b` is true and yet `a >= b` is
true as well: `operator>=` computes `!(b < a)`, the body of `operator<=`, not
`!(a < b)`.  `<`, `>` and `<=` are as the lexicographic order has them. -/
theorem operatorGe_not_negation_of_operatorLt :
    (SimpleVector.ofInit [1] : Except Fault (SimpleVector Nat)) = .ok ⟨[1], 1, 1⟩ ∧
    (SimpleVector.ofInit [2] : Except Fault (SimpleVector Nat)) = .ok ⟨[2], 1, 1⟩ ∧
    operatorLt (⟨[1], 1, 1⟩ : SimpleVector Nat) ⟨[2], 1, 1⟩ = .ok true ∧
    operatorGe (⟨[1], 1, 1⟩ : SimpleVector Nat) ⟨[2], 1, 1⟩ = .ok true ∧
    operatorGt (⟨[1], 1, 1⟩ : SimpleVector Nat) ⟨[2], 1, 1⟩ = .ok false ∧
    operatorLe (⟨[1], 1, 1⟩ : SimpleVector Nat) ⟨[2], 1, 1⟩ = .ok true :=
  ⟨rfl, rfl, rfl, rfl, rfl, rfl⟩

/-- C13: `a{1}` and `b{1, 2, 3}` satisfy the invariant; after `a = b` the
vector `a` has size 3 and capacity 1 over a buffer of 3 slots, which breaks
both parts of the invariant; and the source of the move construction from
`b` has capacity 0 over a buffer of 3 slots. -/
theorem Invariant_not_preserved :
    (SimpleVector.ofInit [1] : Except Fault (SimpleVector Nat)) = .ok ⟨[1], 1, 1⟩ ∧
    (SimpleVector.ofInit [1, 2, 3] : Except Fault (SimpleVector Nat)) = .ok ⟨[1, 2, 3], 3, 3⟩ ∧
    SimpleVector.Invariant (⟨[1], 1, 1⟩ : SimpleVector Nat) ∧
    SimpleVector.Invariant (⟨[1, 2, 3], 3, 3⟩ : SimpleVector Nat) ∧
    SimpleVector.operatorAssign (⟨[1], 1, 1⟩ : SimpleVector Nat) ⟨[1, 2, 3], 3, 3⟩ false
      = .ok (⟨[1, 2, 3], 3, 1⟩, ⟨[1, 2, 3], 3, 3⟩) ∧
    ¬ SimpleVector.Invariant (⟨[1, 2, 3], 3, 1⟩ : SimpleVector Nat) ∧
    ¬ (3 ≤ 1) ∧
    ¬ SimpleVector.Invariant (SimpleVector.ofMove (⟨[1, 2, 3], 3, 3⟩ : SimpleVector Nat)).2 :=
  ⟨rfl, rfl, by decide, by decide, rfl, by decide, by decide, by decide⟩

/-- C14: assigning `b{1, 2}` to a default-constructed `a` gives `a` the
elements `[1, 2]` and size 2 but leaves its capacity counter at 0, so
`size_ ≤ capacity_` fails; assigning `b{9}` to `a{1, 2, 3}` leaves the
capacity counter at 3 over a buffer of 1 slot.  `b` is unchanged in both. -/
theorem operatorAssign_keeps_old_capacity :
    SimpleVector.operatorAssign (SimpleVector.empty : SimpleVector Nat) ⟨[1, 2], 2, 2⟩ false
      = .ok (⟨[1, 2], 2, 0⟩, ⟨[1, 2], 2, 2⟩) ∧
    ¬ ((⟨[1, 2], 2, 0⟩ : SimpleVector Nat).size_ ≤ (⟨[1, 2], 2, 0⟩ : SimpleVector Nat).capacity_) ∧
    SimpleVector.operatorAssign (⟨[1, 2, 3], 3, 3⟩ : SimpleVector Nat) ⟨[9], 1, 1⟩ false
      = .ok (⟨[9], 1, 3⟩, ⟨[9], 1, 1⟩) ∧
    (⟨[9], 1, 3⟩ : SimpleVector Nat).capacity_
      ≠ ArrayPtr.slots (⟨[9], 1, 3⟩ : SimpleVector Nat).items_ :=
  ⟨rfl, by decide, rfl, by decide⟩

/-- C16: move construction from `{1, 2, 3}` hands the elements, size 3 and
capacity 3 to the new vector and leaves the source with size 0 and capacity
0, but with a buffer of 3 slots: the constructor allocates
`items_(other.capacity_)` and swaps that buffer into the source. -/
theorem ofMove_source_retains_buffer :
    SimpleVector.ofMove (⟨[1, 2, 3], 3, 3⟩ : SimpleVector Nat)
      = (⟨[1, 2, 3], 3, 3⟩, ⟨[0, 0, 0], 0, 0⟩) ∧
    ArrayPtr.slots (SimpleVector.ofMove (⟨[1, 2, 3], 3, 3⟩ : SimpleVector Nat)).2.items_ = 3 ∧
    (SimpleVector.ofMove (⟨[1, 2, 3], 3, 3⟩ : SimpleVector Nat)).2.capacity_ = 0 :=
  ⟨rfl, rfl, rfl⟩

/-- C18: on `{1, 2, 3}` (3 slots) the index 3 passes the assertion
`index <= capacity_` of `operator[]`, and the access that follows is to slot 3,
outside the buffer; the index 4 is the first one the assertion stops. -/
theorem subscript_assert_admits_capacity :
    SimpleVector.subscript (⟨[1, 2, 3], 3, 3⟩ : SimpleVector Nat) 3
      = .error (.outOfBounds 3 3) ∧
    SimpleVector.subscript (⟨[1, 2, 3], 3, 3⟩ : SimpleVector Nat) 4 = .error .assertion ∧
    ¬ (3 < ArrayPtr.slots (⟨[1, 2, 3], 3, 3⟩ : SimpleVector Nat).items_) :=
  ⟨rfl, rfl, by decide⟩

/-- C19: on the full vector `{7}` the call `Insert(begin(), 8)` (either
overload) writes slot 1 of its new 1-slot buffer, so there is no position to
erase and the original sequence `[7]` is not restored. -/
theorem Insert_then_Erase_on_full :
    (SimpleVector.ofInit [7] : Except Fault (SimpleVector Nat)) = .ok ⟨[7], 1, 1⟩ ∧
    (SimpleVector.Insert (⟨[7], 1, 1⟩ : SimpleVector Nat) 0 8
      >>= fun r => SimpleVector.Erase r.1 r.2) = .error (.outOfBounds 1 1) ∧
    (SimpleVector.InsertMove (⟨[7], 1, 1⟩ : SimpleVector Nat) 0 8
      >>= fun r => SimpleVector.Erase r.1 r.2) = .error (.outOfBounds 1 1) :=
  ⟨rfl, rfl, rfl⟩

/-! ## Construction -/

theorem ArrayPtr.read_of_getElem? {α : Type} (b : ArrayPtr α) (i : Nat) (x : α)
    (h : b[i]? = some x) : ArrayPtr.read b i = .ok x := by
  unfold ArrayPtr.read
  rw [h]

/-- When the two ranges hold the same elements slot by slot, `std::equal`
runs to the end and returns `true`. -/
theorem equalLoop_of_same {α : Type} [DecidableEq α] (a b : ArrayPtr α) (n : Nat) :
    ∀ (i j : Nat), (∀ k, k < n → ∃ x, a[i + k]? = some x ∧ b[j + k]? = some x) →
      equalLoop a b i j n = .ok true := by
  induction n with
  | zero =>
    intro i j _
    rfl
  | succ n ih =>
    intro i j h
    obtain ⟨x, hx, hy⟩ := h 0 (by omega)
    have hrest : equalLoop a b (i + 1) (j + 1) n = .ok true := by
      apply ih
      intro k hk
      obtain ⟨y, hya, hyb⟩ := h (k + 1) (by omega)
      refine ⟨y, ?_, ?_⟩
      · rw [← hya]
        congr 1
        omega
      · rw [← hyb]
        congr 1
        omega
    simp only [equalLoop, ArrayPtr.read_of_getElem? a i x hx, ArrayPtr.read_of_getElem? b j x hy,
      bind, Except.bind, if_true]
    exact hrest

namespace SimpleVector

variable {α : Type}

/-- The constructor `SimpleVector(size_t size, const Type& value)` returns
`size` slots that all hold `value`. -/
theorem ofSizeValue_ok [Inhabited α] (n : Nat) (value : α) :
    (ofSizeValue n value : Except Fault (SimpleVector α)) =
      .ok { items_ := List.replicate n value, size_ := n, capacity_ := n } := by
  obtain ⟨r, hr, hrl, hrj⟩ := fillLoop_spec value (n - 0) (ArrayPtr.alloc n : ArrayPtr α) 0
    (by simp [ArrayPtr.alloc])
  have hrep : r = List.replicate n value := by
    apply List.ext_getElem?
    intro j
    rw [hrj j, List.getElem?_replicate]
    by_cases hj : j < n
    · have h1 : 0 ≤ j ∧ j < 0 + (n - 0) := by omega
      rw [if_pos h1, if_pos hj]
    · have h1 : ¬ (0 ≤ j ∧ j < 0 + (n - 0)) := by omega
      rw [if_neg h1, if_neg hj]
      simp only [ArrayPtr.alloc]
      rw [List.getElem?_replicate, if_neg hj]
  simp only [ofSizeValue, std_fill, Nat.not_lt_zero, if_false, hr, hrep,
    bind, Except.bind, pure, Except.pure]

/-- C15: for a vector `v` with `size_ ≤ capacity_` whose `capacity_` is the
slot count of its buffer, whatever its spare capacity, the copy constructor
returns normally a vector `c` with `c.size_ = v.size_`, `c.capacity_ = v.size_`
(which is also the slot count of its buffer) and the same logical sequence;
`c == v` and `v == c` are true; and `v` is left as it was. -/
theorem ofCopy_spec [Inhabited α] [DecidableEq α] (v : SimpleVector α)
    (hsize : v.size_ ≤ v.capacity_) (hcap : v.capacity_ = ArrayPtr.slots v.items_) :
    ∃ c, ofCopy v = .ok (c, v) ∧
      c.size_ = v.size_ ∧
      c.capacity_ = v.size_ ∧
      ArrayPtr.slots c.items_ = v.size_ ∧
      c.toList = v.toList ∧
      operatorEq c v = .ok true ∧
      operatorEq v c = .ok true := by
  have hlen : v.size_ ≤ v.items_.length := by
    unfold ArrayPtr.slots at hcap
    omega
  obtain ⟨r, hr, hrl, hrj⟩ := copyLoop_spec v.items_ (v.size_ - 0)
    (ArrayPtr.alloc v.size_ : ArrayPtr α) 0 0 (by omega) (by simp [ArrayPtr.alloc])
  have hrlen : r.length = v.size_ := by
    rw [hrl]
    simp [ArrayPtr.alloc]
  have hsame : ∀ k, k < v.size_ → ∃ x, r[k]? = some x ∧ v.items_[k]? = some x := by
    intro k hk
    have hk2 : k < v.items_.length := by omega
    have h1 : 0 ≤ k ∧ k < 0 + (v.size_ - 0) := by omega
    have h2 : 0 + (k - 0) = k := by omega
    refine ⟨v.items_.get ⟨k, hk2⟩, ?_, ?_⟩
    · rw [hrj k, if_pos h1, h2, List.getElem?_eq_getElem hk2]
      rfl
    · rw [List.getElem?_eq_getElem hk2]
      rfl
  refine ⟨{ items_ := r, size_ := v.size_, capacity_ := v.size_ }, ?_, rfl, rfl, ?_, ?_, ?_, ?_⟩
  · simp only [ofCopy, std_copy, Nat.not_lt_zero, if_false, hr, bind, Except.bind,
      pure, Except.pure]
  · simp only [ArrayPtr.slots]
    exact hrlen
  · apply List.ext_getElem?
    intro j
    simp only [toList]
    rw [List.getElem?_take, List.getElem?_take]
    by_cases hj : j < v.size_
    · obtain ⟨x, hx1, hx2⟩ := hsame j hj
      rw [if_pos hj, if_pos hj, hx1, hx2]
    · rw [if_neg hj, if_neg hj]
  · simp only [operatorEq, std_equal, Nat.not_lt_zero, if_false]
    apply equalLoop_of_same
    intro k hk
    have hk2 : k < v.size_ := by omega
    obtain ⟨x, hx1, hx2⟩ := hsame k hk2
    refine ⟨x, ?_, ?_⟩
    · rw [Nat.zero_add]
      exact hx1
    · rw [Nat.zero_add]
      exact hx2
  · simp only [operatorEq, std_equal, Nat.not_lt_zero, if_false]
    apply equalLoop_of_same
    intro k hk
    have hk2 : k < v.size_ := by omega
    obtain ⟨x, hx1, hx2⟩ := hsame k hk2
    refine ⟨x, ?_, ?_⟩
    · rw [Nat.zero_add]
      exact hx2
    · rw [Nat.zero_add]
      exact hx1

/-- Instance of `ofCopy_spec`: copying `[1, 2]` held in four slots. -/
theorem ofCopy_spec_witness :
    ∃ c, ofCopy (⟨[1, 2, 3, 4], 2, 4⟩ : SimpleVector Nat) = .ok (c, ⟨[1, 2, 3, 4], 2, 4⟩) ∧
      c.size_ = 2 ∧
      c.capacity_ = 2 ∧
      ArrayPtr.slots c.items_ = 2 ∧
      c.toList = toList ⟨[1, 2, 3, 4], 2, 4⟩ ∧
      operatorEq c ⟨[1, 2, 3, 4], 2, 4⟩ = .ok true ∧
      operatorEq ⟨[1, 2, 3, 4], 2, 4⟩ c = .ok true :=
  ofCopy_spec ⟨[1, 2, 3, 4], 2, 4⟩ (by decide) (by decide)

/-- C17: for every `n` and `value`, `SimpleVector(Reserve(n))` has size 0 and
capacity `n`; `SimpleVector(n)` has size `n`, capacity `n` and `n` elements
equal to the default value; `SimpleVector(n, value)` has size `n`, capacity
`n` and `n` elements equal to `value`.  In each the capacity is the slot
count of the buffer. -/
theorem constructors_spec [Inhabited α] (n : Nat) (value : α) :
    (∃ w : SimpleVector α, ofReserve (SimpleVectorModel.Reserve n) = .ok w ∧
      w.size_ = 0 ∧ w.capacity_ = n ∧ ArrayPtr.slots w.items_ = n ∧ w.toList = []) ∧
    (∃ w : SimpleVector α, ofSize n = .ok w ∧
      w.size_ = n ∧ w.capacity_ = n ∧ ArrayPtr.slots w.items_ = n ∧
      w.toList = List.replicate n default) ∧
    (∃ w : SimpleVector α, ofSizeValue n value = .ok w ∧
      w.size_ = n ∧ w.capacity_ = n ∧ ArrayPtr.slots w.items_ = n ∧
      w.toList = List.replicate n value) := by
  refine ⟨?_, ?_, ?_⟩
  · by_cases hn : n > 0
    · refine ⟨{ items_ := List.replicate n default, size_ := 0, capacity_ := n }, ?_, rfl, rfl,
        ?_, ?_⟩
      · have h0 : n > (empty : SimpleVector α).capacity_ := hn
        simp only [ofReserve, SimpleVectorModel.Reserve, ReserveProxyObj.GetSize,
          SimpleVector.Reserve, if_pos h0, ofSize, ofSizeValue_ok, std_copy, empty,
          Nat.lt_irrefl, if_false, Nat.sub_self, copyLoop, swap, bind, Except.bind, pure,
          Except.pure]
        rw [if_pos hn]
      · simp [ArrayPtr.slots]
      · simp [toList]
    · have hz : n = 0 := by omega
      subst hz
      refine ⟨empty, ?_, rfl, rfl, rfl, rfl⟩
      rfl
  · refine ⟨{ items_ := List.replicate n default, size_ := n, capacity_ := n }, ?_, rfl, rfl,
      ?_, ?_⟩
    · simp only [ofSize, ofSizeValue_ok]
    · simp [ArrayPtr.slots]
    · simp [toList]
  · refine ⟨{ items_ := List.replicate n value, size_ := n, capacity_ := n }, ?_, rfl, rfl,
      ?_, ?_⟩
    · exact ofSizeValue_ok n value
    · simp [ArrayPtr.slots]
    · simp [toList]

end SimpleVector

/-! ## PushBack by move -/

/-- Writing slot `n` of a buffer and taking the first `n + 1` slots gives the
first `n` old slots followed by the value written. -/
theorem take_succ_set {α : Type} (buf : List α) (n : Nat) (x : α) (h : n < buf.length) :
    (buf.set n x).take (n + 1) = buf.take n ++ [x] := by
  apply List.ext_getElem?
  intro j
  rw [List.getElem?_take, List.getElem?_set, List.getElem?_append, List.getElem?_take]
  have hl : (List.take n buf).length = n := by
    rw [List.length_take]
    omega
  rw [hl]
  by_cases h1 : j < n
  · have h2 : j < n + 1 := by omega
    have h3 : ¬ (n = j) := by omega
    rw [if_pos h2, if_neg h3, if_pos h1, if_pos h1]
  · by_cases h2 : j = n
    · subst h2
      have h3 : j < j + 1 := by omega
      rw [if_pos h3, if_pos rfl, if_pos h, if_neg h1, Nat.sub_self]
      rfl
    · have h3 : ¬ (j < n + 1) := by omega
      have h4 : [x].length ≤ j - n := by
        simp only [List.length_singleton]
        omega
      rw [if_neg h3, if_neg h1, List.getElem?_eq_none h4]

namespace SimpleVector

variable {α : Type}

/-- The move overload of `PushBack` on a vector with `size_ ≤ capacity_` whose
`capacity_` is the slot count of its buffer: it returns normally, appends the
item, grows to `max (size_ + 1) (2 * capacity_)` exactly when the vector is
full, and keeps the capacity equal to the slot count. -/
theorem PushBackMove_ok [Inhabited α] (v : SimpleVector α) (item : α)
    (hsize : v.size_ ≤ v.capacity_) (hcap : v.capacity_ = ArrayPtr.slots v.items_) :
    ∃ w, PushBackMove v item = .ok w ∧
      w.size_ = v.size_ + 1 ∧
      w.toList = v.toList ++ [item] ∧
      w.capacity_ = (if v.size_ = v.capacity_ then max (v.size_ + 1) (v.capacity_ * 2)
        else v.capacity_) ∧
      w.capacity_ = ArrayPtr.slots w.items_ := by
  have hlen : v.items_.length = v.capacity_ := by
    unfold ArrayPtr.slots at hcap
    omega
  by_cases hfull : v.size_ + 1 > v.capacity_
  · have heq : v.size_ = v.capacity_ := by omega
    obtain ⟨r, hr, hrl, hrj⟩ := copyLoop_spec v.items_ (v.size_ - 0)
      (ArrayPtr.alloc (max (v.size_ + 1) (v.capacity_ * 2)) : ArrayPtr α) 0 0 (by omega)
      (by
        simp only [ArrayPtr.alloc, List.length_replicate]
        have := Nat.le_max_left (v.size_ + 1) (v.capacity_ * 2)
        omega)
    have hrlen : r.length = max (v.size_ + 1) (v.capacity_ * 2) := by
      rw [hrl]
      simp [ArrayPtr.alloc]
    have hlt : v.size_ < r.length := by
      have := Nat.le_max_left (v.size_ + 1) (v.capacity_ * 2)
      omega
    have htake : r.take v.size_ = v.items_.take v.size_ := by
      apply List.ext_getElem?
      intro j
      rw [List.getElem?_take, List.getElem?_take, hrj j]
      by_cases hj : j < v.size_
      · have h1 : 0 ≤ j ∧ j < 0 + (v.size_ - 0) := by omega
        have h2 : 0 + (j - 0) = j := by omega
        rw [if_pos hj, if_pos h1, h2, if_pos hj]
      · rw [if_neg hj, if_neg hj]
    refine ⟨⟨r.set v.size_ item, v.size_ + 1, max (v.size_ + 1) (v.capacity_ * 2)⟩,
      ?_, rfl, ?_, ?_, ?_⟩
    · simp only [PushBackMove, if_pos hfull, std_copy, Nat.not_lt_zero, if_false, hr,
        ArrayPtr.write_of_lt r v.size_ item hlt, bind, Except.bind, pure, Except.pure]
    · simp only [toList]
      rw [take_succ_set r v.size_ item hlt, htake]
    · rw [if_pos heq]
    · simp only [ArrayPtr.slots, List.length_set]
      exact hrlen.symm
  · have hne : ¬ (v.size_ = v.capacity_) := by omega
    have hlt : v.size_ < v.items_.length := by omega
    refine ⟨⟨v.items_.set v.size_ item, v.size_ + 1, v.capacity_⟩, ?_, rfl, ?_, ?_, ?_⟩
    · simp only [PushBackMove, if_neg hfull, ArrayPtr.write_of_lt v.items_ v.size_ item hlt,
        bind, Except.bind, pure, Except.pure]
    · simp only [toList]
      rw [take_succ_set v.items_ v.size_ item hlt]
    · rw [if_neg hne]
    · simp only [ArrayPtr.slots, List.length_set]
      exact hlen.symm

/-- Pushing a list of values by move onto a vector that is either
default-constructed or holds `size_` elements in a capacity `2 ^ k` with
`2 ^ k < 2 * size_`: the calls return normally, append the values in order,
and the same alternative holds afterwards. -/
theorem pushBackAll_doubling [Inhabited α] (xs : List α) :
    ∀ (v : SimpleVector α), v.size_ ≤ v.capacity_ → v.capacity_ = ArrayPtr.slots v.items_ →
      ((v.size_ = 0 ∧ v.capacity_ = 0) ∨
        ∃ k, v.capacity_ = 2 ^ k ∧ 2 ^ k < 2 * v.size_) →
      ∃ w, pushBackAll v xs = .ok w ∧
        w.size_ = v.size_ + xs.length ∧
        w.toList = v.toList ++ xs ∧
        w.size_ ≤ w.capacity_ ∧
        w.capacity_ = ArrayPtr.slots w.items_ ∧
        ((w.size_ = 0 ∧ w.capacity_ = 0) ∨
          ∃ k, w.capacity_ = 2 ^ k ∧ 2 ^ k < 2 * w.size_) := by
  induction xs with
  | nil =>
    intro v hsize hcap hpow
    refine ⟨v, rfl, rfl, ?_, hsize, hcap, hpow⟩
    rw [List.append_nil]
  | cons x xs ih =>
    intro v hsize hcap hpow
    obtain ⟨u, hu, husize, hulist, hucap, huslots⟩ := PushBackMove_ok v x hsize hcap
    have hupow : ∃ k, u.capacity_ = 2 ^ k ∧ 2 ^ k < 2 * u.size_ ∧ u.size_ ≤ 2 ^ k := by
      rcases hpow with ⟨h0, h1⟩ | ⟨k, hk1, hk2⟩
      · refine ⟨0, ?_, ?_, ?_⟩
        · rw [hucap, if_pos (by omega), h0, h1]
          rfl
        · rw [husize, h0]
          decide
        · rw [husize, h0]
          decide
      · have hpos : 0 < 2 ^ k := Nat.two_pow_pos k
        by_cases hfull : v.size_ = v.capacity_
        · refine ⟨k + 1, ?_, ?_, ?_⟩
          · rw [hucap, if_pos hfull, Nat.pow_succ, hfull, hk1, Nat.max_def]
            split <;> omega
          · rw [husize, Nat.pow_succ]
            omega
          · rw [husize, Nat.pow_succ]
            omega
        · refine ⟨k, ?_, ?_, ?_⟩
          · rw [hucap, if_neg hfull, hk1]
          · rw [husize]
            omega
          · rw [husize]
            omega
    obtain ⟨k, hk1, hk2, hk3⟩ := hupow
    obtain ⟨w, hw, hwsize, hwlist, hwle, hwslots, hwpow⟩ :=
      ih u (by omega) huslots (Or.inr ⟨k, hk1, hk2⟩)
    refine ⟨w, ?_, ?_, ?_, hwle, hwslots, hwpow⟩
    · simp only [pushBackAll, hu, bind, Except.bind]
      exact hw
    · rw [hwsize, husize, List.length_cons]
      omega
    · rw [hwlist, hulist, List.append_assoc]
      rfl

/-- C20: starting from a default-constructed vector, `n ≥ 1` successive calls
of the move overload of `PushBack` with the values `xs` return normally and
leave size `n`, the logical sequence `xs`, and a capacity that is the least
power of two that is at least `n`. -/
theorem pushBackAll_spec [Inhabited α] (xs : List α) (hn : 1 ≤ xs.length) :
    ∃ w, pushBackAll (empty : SimpleVector α) xs = .ok w ∧
      w.size_ = xs.length ∧
      w.toList = xs ∧
      ∃ k, w.capacity_ = 2 ^ k ∧ xs.length ≤ 2 ^ k ∧
        ∀ m, xs.length ≤ 2 ^ m → 2 ^ k ≤ 2 ^ m := by
  obtain ⟨w, hw, hwsize, hwlist, hwle, _, hwpow⟩ :=
    pushBackAll_doubling xs (empty : SimpleVector α) (Nat.le_refl 0) rfl (Or.inl ⟨rfl, rfl⟩)
  have hsz : w.size_ = xs.length := by
    rw [hwsize]
    exact Nat.zero_add _
  refine ⟨w, hw, hsz, ?_, ?_⟩
  · rw [hwlist]
    rfl
  · rcases hwpow with ⟨h0, _⟩ | ⟨k, hk1, hk2⟩
    · omega
    · refine ⟨k, hk1, ?_, ?_⟩
      · omega
      · intro m hm
        have h1 : 2 ^ k < 2 ^ (m + 1) := by
          rw [Nat.pow_succ]
          omega
        have h2 : k < m + 1 := (Nat.pow_lt_pow_iff_right (by decide)).mp h1
        exact Nat.pow_le_pow_right (by decide) (by omega)

/-- Instance of `pushBackAll_spec`: five calls. -/
theorem pushBackAll_spec_witness :
    ∃ w, pushBackAll (empty : SimpleVector Nat) [1, 2, 3, 4, 5] = .ok w ∧
      w.size_ = [1, 2, 3, 4, 5].length ∧
      w.toList = [1, 2, 3, 4, 5] ∧
      ∃ k, w.capacity_ = 2 ^ k ∧ [1, 2, 3, 4, 5].length ≤ 2 ^ k ∧
        ∀ m, [1, 2, 3, 4, 5].length ≤ 2 ^ m → 2 ^ k ≤ 2 ^ m :=
  pushBackAll_spec [1, 2, 3, 4, 5] (by decide)

end SimpleVector

end SimpleVectorModel
